import Mathlib

/-!
Shallow embedding of the MAP-Elites exercise-schedule search engine
(`src/gene.py`, `src/chromosome.py`, `src/exercise.py`, `src/schedule.py`,
`src/map_elites.py`, `src/src/weight_loss_difference.py`, `src/defaults.py`).

Conventions used throughout:
* Python floats are modelled as exact rationals (`ℚ`); numeric literals such
  as `0.00013` are taken at their decimal value `13/100000`.
* Python `int` indices into numpy arrays are modelled as `ℤ`, with numpy's
  bounds rule (an index `j` into an axis of size `b` is valid iff
  `-b ≤ j ≤ b-1`, negative values wrapping to `j + b`) captured by `npIndex`.
* The single shared pseudo-random source is modelled as an oracle: each spot
  where the code draws randomness becomes an explicit argument (a chosen
  index, a chosen fresh gene, a chosen mutation operator, ...).
* In-place mutation of shared `Gene` objects is modelled with an explicit
  gene heap (`GeneHeap`): a Python `Gene` reference is a natural-number id,
  and a `Chromosome`'s `_chromosome` list is a list of ids.
-/

namespace HonoursProject

/-- `Defaults.MAX_EXERCISES_PER_SCHEDULE` (`defaults.py`): ceiling on the
number of genes per chromosome. -/
def MAX_EXERCISES_PER_SCHEDULE : ℕ := 10

/-- A genotype gene (`gene.py`, class `Gene`): the fields `_exercise_index`,
`_duration` and `_base10_schedule`. -/
structure Gene where
  exerciseIndex : ℕ
  duration : ℕ
  base10Schedule : ℕ
  deriving DecidableEq, Repr

/-- Character `i` of Python `format(m, '07b')` for `m ≤ 127`: position `0` is
the most significant of the 7 bits, so it is bit `6 - i` of `m`. -/
def bit7 (m i : ℕ) : Bool := m.testBit (6 - i)

/-- `format(m, '07b')` (`gene.py` `Gene.schedule_to_base`, base 2 branch) as a
7-character string, faithful for `m ≤ 127` (the configured mask range is
1–127). -/
def bin7 (m : ℕ) : String :=
  String.mk ((List.range 7).map (fun i => if bit7 m i then '1' else '0'))

/-- A decoded exercise (`exercise.py`, class `Exercise`): the MET value
resolved from the catalog plus the gene's duration and weekly mask.
`Exercise.__init__` value-copies the gene's three fields through
`Gene.__init__(config, other=gene)`. -/
structure Exercise where
  met : ℚ
  duration : ℕ
  mask : ℕ
  deriving DecidableEq, Repr

/-- The exercise catalog reduced to its MET column (`exercise_repository.py`):
`item_at(i)['met']` is `catalog.get? i`. -/
def decodeGene (catalog : List ℚ) (g : Gene) : Option Exercise :=
  (catalog.get? g.exerciseIndex).map
    (fun m => ⟨m, g.duration, g.base10Schedule⟩)

/-- `Schedule._decode` (`schedule.py`): every gene is resolved against the
catalog; an out-of-bounds index would raise, modelled by `Option`. -/
def decodeChromosome (catalog : List ℚ) (genes : List Gene) :
    Option (List Exercise) :=
  genes.mapM (decodeGene catalog)

/-- The weekday-`i` bucket built by `Schedule._make_schedule` (`schedule.py`):
exercises whose mask has the day-`i` bit set, in gene order. -/
def dayBucket (exs : List Exercise) (i : ℕ) : List Exercise :=
  exs.filter (fun e => bit7 e.mask i)

/-- `Schedule._schedule_as_list`: the 7 per-weekday buckets. -/
def weekSchedule (exs : List Exercise) : List (List Exercise) :=
  (List.range 7).map (dayBucket exs)

/-- `Schedule._merge_binary_schedules` (`schedule.py`): per position, '1' iff
some exercise's 7-bit mask has that bit set. -/
def mergeBinarySchedules (masks : List ℕ) : String :=
  String.mk ((List.range 7).map
    (fun i => if masks.any (fun m => bit7 m i) then '1' else '0'))

/-- `max(len(l) for l in lst)` in `Schedule._fill_and_return_matrix`
(`schedule.py`). -/
def maxRowLen (rows : List (List ℚ)) : ℕ :=
  (rows.map List.length).foldr max 0

/-- `Schedule._fill_and_return_matrix` (`schedule.py`): pad every row with the
filler `0` up to the longest row's length. -/
def fillMatrix (rows : List (List ℚ)) : List (List ℚ) :=
  rows.map (fun r => r ++ List.replicate (maxRowLen rows - r.length) 0)

/-- `np.mean` over a 2-d matrix given as rows: total sum over total entry
count. -/
def npMean2d (rows : List (List ℚ)) : ℚ :=
  (rows.map List.sum).sum / (((rows.map List.length).sum : ℕ) : ℚ)

/-- `np.mean` over a 1-d array. -/
def npMean1d (xs : List ℚ) : ℚ := xs.sum / (xs.length : ℚ)

/-- `Schedule.mets()` (`schedule.py`): the per-day MET rows, zero-padded into
a rectangular matrix by `_fill_and_return_matrix`. -/
def metsMatrix (exs : List Exercise) : List (List ℚ) :=
  fillMatrix ((weekSchedule exs).map (fun day => day.map (fun e => e.met)))

/-- `Schedule.durations()` (`schedule.py`): the per-day duration rows,
zero-padded into a rectangular matrix. -/
def durationsMatrix (exs : List Exercise) : List (List ℚ) :=
  fillMatrix ((weekSchedule exs).map
    (fun day => day.map (fun e => (e.duration : ℚ))))

/-- `Exercise.frequency()` (`exercise.py`): the number of '1' characters of
the 7-character base-2 mask, i.e. the popcount of the 7-bit mask. -/
def frequency (e : Exercise) : ℕ :=
  ((List.range 7).filter (fun i => bit7 e.mask i)).length

/-- `Schedule.frequencies()` (`schedule.py`): 1-d array of per-exercise
popcounts. -/
def frequenciesArray (exs : List Exercise) : List ℚ :=
  exs.map (fun e => (frequency e : ℚ))

/-- `Schedule.features()` (`schedule.py`): `np.mean` of the padded METs
matrix, `np.mean` of the padded durations matrix, `np.mean` of the
frequencies array. -/
def features (exs : List Exercise) : ℚ × ℚ × ℚ :=
  (npMean2d (metsMatrix exs), npMean2d (durationsMatrix exs),
    npMean1d (frequenciesArray exs))

/-- `WeightLossDifference._weight_loss` (`weight_loss_difference.py`):
`(0.00013 * met * w * duration) / 60`. -/
def weightLoss (met w dur : ℚ) : ℚ :=
  (13 / 100000 * met * w * dur) / 60

/-- One day of `WeightLossDifference._final_weight`: subtract each exercise's
estimated loss sequentially, compounding on the running weight. -/
def dayStep (w : ℚ) (day : List Exercise) : ℚ :=
  day.foldl (fun w e => w - weightLoss e.met w (e.duration : ℚ)) w

/-- One week of `WeightLossDifference._final_weight`: fold the seven day
buckets in chronological order. -/
def weekStep (sched : List (List Exercise)) (w : ℚ) : ℚ :=
  sched.foldl dayStep w

/-- `WeightLossDifference._final_weight` (`weight_loss_difference.py`): start
at `w0` and run the week simulation `P` times. -/
def finalWeight (w0 : ℚ) (P : ℕ) (sched : List (List Exercise)) : ℚ :=
  (weekStep sched)^[P] w0

/-- Python `round(q, 2)` modelled over `ℚ` (ties, which Python rounds to
even, do not occur in any statement below). -/
def roundTo2 (q : ℚ) : ℚ := ((round (q * 100) : ℤ) : ℚ) / 100

/-- `WeightLossDifference._delta` = `run` (`weight_loss_difference.py`): the
fitness `round(abs(wt - final_weight), 2)`. -/
def fitnessDelta (wt w0 : ℚ) (P : ℕ) (sched : List (List Exercise)) : ℚ :=
  roundTo2 |wt - finalWeight w0 P sched|

/-- Python `int()` truncation toward zero on a rational. -/
def pyInt (q : ℚ) : ℤ := if 0 ≤ q then ⌊q⌋ else -⌊-q⌋

/-- One component of `MapElites._scale_features` (`map_elites.py`):
`int((r - r_min) / (((r_max + 1) - r_min) / b)) + 1` where `r_min = rng.start`
and `r_max = rng.stop`. -/
def scaleOne (rmin rstop : ℤ) (b : ℕ) (r : ℚ) : ℤ :=
  pyInt ((r - (rmin : ℚ)) / ((((rstop + 1 - rmin : ℤ) : ℚ)) / (b : ℚ))) + 1

/-- `MapElites._scale_features` (`map_elites.py`): the ranges are
`repo.met_range()`, `config.daily_duration_range()` and `range(0, 8)`. -/
def scaleFeatures (metLo metStop d2Lo d2Stop : ℤ) (b : ℕ)
    (f : ℚ × ℚ × ℚ) : ℤ × ℤ × ℤ :=
  (scaleOne metLo metStop b f.1, scaleOne d2Lo d2Stop b f.2.1,
    scaleOne 0 8 b f.2.2)

/-- numpy integer indexing into an axis of size `b`: `j` resolves iff
`-b ≤ j ≤ b - 1`, with negative `j` wrapping to `j + b`; anything else raises
`IndexError` (`none`). -/
def npIndex (b : ℕ) (j : ℤ) : Option (Fin b) :=
  if h : 0 ≤ j ∧ j < (b : ℤ) then some ⟨j.toNat, by omega⟩
  else if h2 : -(b : ℤ) ≤ j ∧ j < 0 then some ⟨(j + b).toNat, by omega⟩
  else none

/-- The mutable state of `MapElites` (`map_elites.py`): `_map_P` (initialised
to the sentinel `-1.0`), `_map_X` (initialised to `None`), `_data_points`,
and the loop-local `elements_skipped` counter.  Grids are total functions on
canonical (non-negative) cell coordinates; only coordinates below the bin
count are ever touched. -/
structure MapState (σ : Type) where
  mapP : ℕ → ℕ → ℕ → ℚ
  mapX : ℕ → ℕ → ℕ → Option σ
  dataPoints : List (ℤ × ℤ × ℤ)
  skipped : ℕ

/-- The state right after `MapElites.__init__`. -/
def initState (σ : Type) : MapState σ :=
  ⟨fun _ _ _ => -1, fun _ _ _ => none, [], 0⟩

/-- The elitist acceptance test of `MapElites.run` (`map_elites.py`):
`curr_x < 0 or curr_x > p`. -/
def accepts (curr p : ℚ) : Prop := curr < 0 ∨ curr > p

instance (curr p : ℚ) : Decidable (accepts curr p) := by
  unfold accepts
  infer_instance

/-- The accepted-insertion branch of `MapElites.run`: append the raw data
point, overwrite the cell's performance and solution. -/
def insertAt {σ : Type} (s : MapState σ) (x y z : ℕ) (sol : σ) (p : ℚ)
    (dp : ℤ × ℤ × ℤ) : MapState σ :=
  { mapP := fun a b c => if a = x ∧ b = y ∧ c = z then p else s.mapP a b c
    mapX := fun a b c => if a = x ∧ b = y ∧ c = z then some sol else s.mapX a b c
    dataPoints := s.dataPoints ++ [dp]
    skipped := s.skipped }

/-- The per-evaluation archive-update attempt of `MapElites.run`
(`map_elites.py`, the `try`/`except IndexError` block): with scaled raw
indices `(j,k,l)` and fitness `p`, reading `_map_P[j][k][l]` raises
`IndexError` (counted in `elements_skipped`, nothing else changes) unless all
three indices are valid numpy indices; otherwise insert iff the incumbent is
negative or strictly greater than `p`. -/
def mapStep {σ : Type} (bins : ℕ) (s : MapState σ) (j k l : ℤ) (sol : σ)
    (p : ℚ) : MapState σ :=
  match npIndex bins j, npIndex bins k, npIndex bins l with
  | some x, some y, some z =>
      if accepts (s.mapP x.val y.val z.val) p then
        insertAt s x.val y.val z.val sol p (j, k, l)
      else s
  | _, _, _ => { s with skipped := s.skipped + 1 }

/-- One full evaluation of `MapElites.run` after the candidate's exercises
are decoded: extract features, scale them, and attempt the archive update
with the schedule's fitness. -/
def runEval {σ : Type} (bins : ℕ) (metLo metStop d2Lo d2Stop : ℤ)
    (wt w0 : ℚ) (P : ℕ) (s : MapState σ) (sol : σ) (exs : List Exercise) :
    MapState σ :=
  let jkl := scaleFeatures metLo metStop d2Lo d2Stop bins (features exs)
  mapStep bins s jkl.1 jkl.2.1 jkl.2.2 sol
    (fitnessDelta wt w0 P (weekSchedule exs))

/-- The per-cell trace of fitness values ever stored by repeated insertion
attempts (`MapElites.run`): starting from the cell's current value, each
challenger is stored iff `accepts`, and a stored challenger becomes the new
incumbent. -/
def storedSeq (curr : ℚ) : List ℚ → List ℚ
  | [] => []
  | p :: ps => if accepts curr p then p :: storedSeq p ps else storedSeq curr ps

/-! ### Chromosome mutation (`chromosome.py`) -/

/-- The random field choice of `Gene.alter()` (`gene.py`): replace exactly
one of the three fields with a fresh value (the randomness oracle supplies
which field and which value). -/
inductive FieldAlter where
  | exIdx (v : ℕ)
  | dur (v : ℕ)
  | sched (v : ℕ)
  deriving DecidableEq, Repr

/-- `Gene.alter()` (`gene.py`): overwrite the chosen field. -/
def alterGene (g : Gene) : FieldAlter → Gene
  | .exIdx v => { g with exerciseIndex := v }
  | .dur v => { g with duration := v }
  | .sched v => { g with base10Schedule := v }

/-- The randomness consumed by one `Chromosome.mutate()` call
(`chromosome.py`): either the Bernoulli draw fails (`skip`), or one operator
is drawn from the probability pool together with its own random draws. -/
inductive MutChoice where
  | skip
  | alter (i : ℕ) (f : FieldAlter)
  | add (g : Gene)
  | del (i : ℕ)
  deriving Repr

/-- `Chromosome.mutate()` (`chromosome.py`) acting on the gene list:
`_alter` replaces one field of the gene at the drawn index (the drawn index
is always in range in the source), `_add` appends a fresh gene unless the
size has reached `MAX_EXERCISES_PER_SCHEDULE`, `_delete` removes the gene at
the drawn index unless the size is 1. -/
def mutate (c : List Gene) : MutChoice → List Gene
  | .skip => c
  | .alter i f =>
    match c.get? i with
    | some g => c.set i (alterGene g f)
    | none => c
  | .add g => if c.length < MAX_EXERCISES_PER_SCHEDULE then c ++ [g] else c
  | .del i => if c.length > 1 then c.eraseIdx i else c

/-! ### Reference-sharing model (`chromosome.py` copy construction,
`map_elites.py` EXPLORE branch)

A Python `Gene` object is identified by a heap id; a chromosome's
`_chromosome` list is a list of ids.  `genotype_to_list('shallow')` builds a
fresh Python list of the *same* `Gene` references, and
`Chromosome.__init__(config, other)` stores exactly that list, so the copy
shares every gene object with the original. -/

/-- The store of live `Gene` objects, by id. -/
def GeneHeap : Type := ℕ → Gene

/-- A `Chromosome`'s `_chromosome` field as gene references. -/
structure ChromRef where
  ids : List ℕ
  deriving DecidableEq, Repr

/-- `Chromosome.genotype_to_list('shallow')` (`chromosome.py`): a new list
holding the same gene references. -/
def genotypeToListShallow (c : ChromRef) : List ℕ := c.ids

/-- The `other is not None` branch of `Chromosome.__init__`
(`chromosome.py`): `self._chromosome = other.genotype_to_list('shallow')`. -/
def copyChrom (other : ChromRef) : ChromRef :=
  ⟨genotypeToListShallow other⟩

/-- The gene values a chromosome observes through its references. -/
def observedGenes (h : GeneHeap) (c : ChromRef) : List Gene :=
  c.ids.map h

/-- In-place `Gene.alter()` on the heap: the object with id `gid` changes for
every chromosome holding a reference to it. -/
def heapAlter (h : GeneHeap) (gid : ℕ) (g : Gene) : GeneHeap :=
  fun x => if x = gid then g else h x

/-- An archived `Schedule` as seen by the EXPLORE branch: its genotype
references plus the cached `_fitness` and feature values computed at
construction time (`schedule.py` `Schedule.__init__`). -/
structure ArchivedSchedule where
  genotype : ChromRef
  cachedFitness : ℚ
  cachedFeatures : ℚ × ℚ × ℚ

/-- The EXPLORE branch of `MapElites.run` (`map_elites.py`) when the mutation
draw is an alteration: `parent = self._select_random()` is the archived
occupant itself, `parent.mutate()` alters the gene at index `i` in place
(through the shared reference), and `Schedule(parent, config)` copy-constructs
from the same reference list.  Returns the new heap, the child's genotype and
the (untouched) occupant record. -/
def exploreAlterStep (h : GeneHeap) (occ : ArchivedSchedule) (i : ℕ)
    (f : FieldAlter) : GeneHeap × ChromRef × ArchivedSchedule :=
  let gid := occ.genotype.ids.getD i 0
  let h' := heapAlter h gid (alterGene (h gid) f)
  (h', copyChrom occ.genotype, occ)

/-! ### Python `format` and `Schedule.schedule_to_base` (`schedule.py`) -/

/-- A Python value that can be handed to `format(·, '07b')`. -/
inductive PyVal where
  | int (n : ℕ)
  | str (s : String)
  deriving DecidableEq, Repr

/-- Python `format(v, '07b')`: renders an integer in binary padded to 7
characters, but raises `ValueError` on a string argument ('b' is not a valid
string format code). -/
def pyFormat07b : PyVal → Except String String
  | .int n => .ok (bin7 n)
  | .str _ => .error "ValueError: Unknown format code b for object of type str"

/-- `Schedule.schedule_to_base` (`schedule.py`): the base-10 branch applies
`format(self._base2_schedule, '07b')` to the stored base-2 *string*; the
base-2 branch returns the stored string; any other base raises. -/
def scheduleToBase (base2Schedule : String) (base : ℕ) :
    Except String String :=
  if base = 10 then pyFormat07b (.str base2Schedule)
  else if base = 2 then .ok base2Schedule
  else .error "ValueError: Unexpected number base!"

/-! ### Spec-worded definitions, used only to compare against the code's
behaviour (refinement checks) -/

/-- Stated from the spec's words for claim C4: the arithmetic mean of the MET
values over all scheduled exercise occurrences (each exercise once per
weekday on which it occurs). -/
def specOccurrenceMeanMet (exs : List Exercise) : ℚ :=
  npMean1d ((weekSchedule exs).flatten.map (fun e => e.met))

/-- Stated from the spec's words for claim C4: the mean duration over all
scheduled exercise occurrences. -/
def specOccurrenceMeanDuration (exs : List Exercise) : ℚ :=
  npMean1d ((weekSchedule exs).flatten.map (fun e => (e.duration : ℚ)))

/-- `Chromosome._generate(5)` as invoked by `Chromosome.__init__` when no
`other` is given (`chromosome.py`): five fresh random genes supplied by the
randomness oracle. -/
def generateChromosome (fresh : ℕ → Gene) : List Gene :=
  (List.range 5).map fresh

/-! ## Theorems -/

/-- Claim C9: for every Schedule, `schedule_to_base(2)` returns the merged
7-character binary mask string, while `schedule_to_base(10)` always raises
(the base-10 branch applies integer binary formatting to the stored base-2
string), so the decimal form of the merged weekly schedule can never be
obtained through this accessor. -/
theorem C9_schedule_to_base (masks : List ℕ) :
    scheduleToBase (mergeBinarySchedules masks) 2 =
      Except.ok (mergeBinarySchedules masks) ∧
    (mergeBinarySchedules masks).length = 7 ∧
    scheduleToBase (mergeBinarySchedules masks) 10 =
      Except.error "ValueError: Unknown format code b for object of type str" := by
  refine ⟨rfl, ?_, rfl⟩
  simp [mergeBinarySchedules, String.length]

/-- Claim C5: the fitness is `round(|wt - wf|, 2)` where `wf` starts at `w0`
and, for each of `P` weeks, each weekday in order, each exercise on that day
in insertion order, subtracts `(0.00013·met·w·duration)/60` from the running
weight, each subtraction compounding on the previous one; for `w0 = 80`,
`wt = 75`, `P = 1` and a single exercise of MET 8 and duration 30 on one day,
`wf = 80 - (0.00013·8·80·30)/60` and the fitness is `4.96`. -/
theorem C5_objective_function :
    (∀ (wt w0 : ℚ) (P : ℕ) (sched : List (List Exercise)),
      fitnessDelta wt w0 P sched = roundTo2 |wt - finalWeight w0 P sched|) ∧
    (∀ (w : ℚ), dayStep w [] = w) ∧
    (∀ (w : ℚ) (e : Exercise) (day : List Exercise),
      dayStep w (e :: day) =
        dayStep (w - (13 / 100000 * e.met * w * (e.duration : ℚ)) / 60) day) ∧
    (∀ (w0 : ℚ) (sched : List (List Exercise)), finalWeight w0 0 sched = w0) ∧
    (∀ (w0 : ℚ) (P : ℕ) (sched : List (List Exercise)),
      finalWeight w0 (P + 1) sched = weekStep sched (finalWeight w0 P sched)) ∧
    finalWeight 80 1 (weekSchedule [⟨8, 30, 64⟩]) =
      80 - (13 / 100000 * 8 * 80 * 30) / 60 ∧
    fitnessDelta 75 80 1 (weekSchedule [⟨8, 30, 64⟩]) = 496 / 100 := by
  have hwk : weekSchedule [(⟨8, 30, 64⟩ : Exercise)] =
      [[⟨8, 30, 64⟩], [], [], [], [], [], []] := by decide
  refine ⟨fun _ _ _ _ => rfl, fun _ => rfl, fun _ _ _ => rfl,
    fun _ _ => rfl, fun w0 P sched => ?_, ?_, ?_⟩
  · simp [finalWeight, Function.iterate_succ_apply']
  · rw [hwk]
    norm_num [finalWeight, weekStep, dayStep, weightLoss]
  · rw [hwk]
    norm_num [fitnessDelta, finalWeight, weekStep, dayStep, weightLoss,
      roundTo2, round_eq]
    rw [show |(3099:ℚ)/625| = 3099/625 from abs_of_pos (by norm_num)]
    norm_num

/-- One `mutate()` call keeps the gene count within
`[1, MAX_EXERCISES_PER_SCHEDULE]`. -/
theorem mutate_size_bounds (c : List Gene) (d : MutChoice)
    (h1 : 1 ≤ c.length) (h2 : c.length ≤ MAX_EXERCISES_PER_SCHEDULE) :
    1 ≤ (mutate c d).length ∧
      (mutate c d).length ≤ MAX_EXERCISES_PER_SCHEDULE := by
  cases d with
  | skip => exact ⟨h1, h2⟩
  | alter i f =>
    simp only [mutate]
    cases h : c.get? i with
    | none => exact ⟨h1, h2⟩
    | some g => simp only [List.length_set]; exact ⟨h1, h2⟩
  | add g =>
    simp only [mutate]
    split
    · simp only [List.length_append, List.length_cons, List.length_nil]
      omega
    · exact ⟨h1, h2⟩
  | del i =>
    simp only [mutate]
    split
    · rw [List.length_eraseIdx]
      split <;> omega
    · exact ⟨h1, h2⟩

/-- Claim C6: for every Chromosome and every finite sequence of `mutate()`
calls, the gene count stays within `[1, MAX_EXERCISES_PER_SCHEDULE]`; the add
operator is a no-op at the ceiling and the delete operator is a no-op at size
1, so no mutation produces an empty chromosome or one above the ceiling. -/
theorem C6_size_invariant :
    (∀ (c : List Gene) (ds : List MutChoice),
      1 ≤ c.length → c.length ≤ MAX_EXERCISES_PER_SCHEDULE →
      1 ≤ (ds.foldl mutate c).length ∧
        (ds.foldl mutate c).length ≤ MAX_EXERCISES_PER_SCHEDULE) ∧
    (∀ (c : List Gene) (g : Gene),
      c.length = MAX_EXERCISES_PER_SCHEDULE → mutate c (.add g) = c) ∧
    (∀ (c : List Gene) (i : ℕ), c.length = 1 → mutate c (.del i) = c) := by
  refine ⟨fun c ds => ?_, fun c g hc => ?_, fun c i hc => ?_⟩
  · induction ds generalizing c with
    | nil => exact fun h1 h2 => ⟨h1, h2⟩
    | cons d ds ih =>
      intro h1 h2
      have hd := mutate_size_bounds c d h1 h2
      exact ih (mutate c d) hd.1 hd.2
  · simp [mutate, hc]
  · simp [mutate, hc]

/-- Witness for claim C6 at a concrete chromosome and mutation sequence. -/
theorem C6_size_invariant_witness :
    (1 ≤ ([MutChoice.add ⟨1, 30, 3⟩, MutChoice.del 0,
            MutChoice.alter 0 (.dur 45)].foldl mutate
            [({exerciseIndex := 0, duration := 15, base10Schedule := 1} : Gene)]).length ∧
      ([MutChoice.add ⟨1, 30, 3⟩, MutChoice.del 0,
            MutChoice.alter 0 (.dur 45)].foldl mutate
            [({exerciseIndex := 0, duration := 15, base10Schedule := 1} : Gene)]).length ≤
        MAX_EXERCISES_PER_SCHEDULE) ∧
    mutate [⟨0, 15, 1⟩] (.del 0) = [⟨0, 15, 1⟩] := by
  exact ⟨C6_size_invariant.1 _ _ (by decide) (by decide),
    C6_size_invariant.2.2 _ 0 (by decide)⟩

/-- The fitness returned by the objective function is non-negative. -/
theorem fitnessDelta_nonneg (wt w0 : ℚ) (P : ℕ)
    (sched : List (List Exercise)) : 0 ≤ fitnessDelta wt w0 P sched := by
  unfold fitnessDelta roundTo2
  have h : (0 : ℤ) ≤ round (|wt - finalWeight w0 P sched| * 100) := by
    rw [round_eq]
    exact Int.le_floor.mpr (by positivity)
  exact div_nonneg (by exact_mod_cast h) (by norm_num)

/-- Every value in a cell's stored trace is at most the (non-negative)
incumbent it started from. -/
theorem storedSeq_le (ps : List ℚ) : ∀ curr q : ℚ, (∀ p ∈ ps, 0 ≤ p) →
    0 ≤ curr → q ∈ storedSeq curr ps → q ≤ curr := by
  induction ps with
  | nil => intro curr q _ _ hq; simp [storedSeq] at hq
  | cons p ps ih =>
    intro curr q hnn hcurr hq
    have hp : 0 ≤ p := hnn p (List.mem_cons_self p ps)
    have hps : ∀ r ∈ ps, 0 ≤ r := fun r hr => hnn r (List.mem_cons_of_mem p hr)
    by_cases hacc : accepts curr p
    · rw [storedSeq, if_pos hacc] at hq
      have hplt : p < curr := by
        rcases hacc with h | h
        · exact absurd hcurr (not_le.mpr h)
        · exact h
      rcases List.mem_cons.mp hq with rfl | hq
      · exact le_of_lt hplt
      · exact le_trans (ih p q hps hp hq) (le_of_lt hplt)
    · rw [storedSeq, if_neg hacc] at hq
      exact ih curr q hps hcurr hq

/-- A cell's stored trace is non-increasing whenever all challengers are
non-negative. -/
theorem storedSeq_chain (ps : List ℚ) : ∀ curr : ℚ, (∀ p ∈ ps, 0 ≤ p) →
    List.Chain' (fun a b => a ≥ b) (storedSeq curr ps) := by
  induction ps with
  | nil => intro curr _; simp [storedSeq]
  | cons p ps ih =>
    intro curr hnn
    have hp : 0 ≤ p := hnn p (List.mem_cons_self p ps)
    have hps : ∀ r ∈ ps, 0 ≤ r := fun r hr => hnn r (List.mem_cons_of_mem p hr)
    by_cases hacc : accepts curr p
    · rw [storedSeq, if_pos hacc]
      refine List.chain'_cons'.mpr ⟨?_, ih p hps⟩
      intro b hb
      exact storedSeq_le ps p b hps hp (List.mem_of_mem_head? hb)
    · rw [storedSeq, if_neg hacc]
      exact ih curr hps

/-- When one of the three scaled indices is not a valid numpy index, the
archive-update attempt raises `IndexError`: only the skip counter changes. -/
theorem mapStep_skip {σ : Type} (bins : ℕ) (s : MapState σ) (j k l : ℤ)
    (sol : σ) (p : ℚ)
    (h : npIndex bins j = none ∨ npIndex bins k = none ∨
      npIndex bins l = none) :
    mapStep bins s j k l sol p = { s with skipped := s.skipped + 1 } := by
  unfold mapStep
  cases hj : npIndex bins j <;> cases hk : npIndex bins k <;>
    cases hl : npIndex bins l <;> simp_all

/-- When all three scaled indices are valid, the archive-update attempt
reaches the elitist conditional. -/
theorem mapStep_valid {σ : Type} (bins : ℕ) (s : MapState σ) (j k l : ℤ)
    (sol : σ) (p : ℚ) (x y z : Fin bins) (hj : npIndex bins j = some x)
    (hk : npIndex bins k = some y) (hl : npIndex bins l = some z) :
    mapStep bins s j k l sol p =
      if accepts (s.mapP x.val y.val z.val) p then
        insertAt s x.val y.val z.val sol p (j, k, l)
      else s := by
  unfold mapStep
  rw [hj, hk, hl]

/-- At valid indices, the candidate is stored (the whole accepted-insertion
branch executes) iff the incumbent fitness is negative or strictly greater
than the challenger's. -/
theorem mapStep_insert_iff {σ : Type} (bins : ℕ) (s : MapState σ)
    (j k l : ℤ) (sol : σ) (p : ℚ) (x y z : Fin bins)
    (hj : npIndex bins j = some x) (hk : npIndex bins k = some y)
    (hl : npIndex bins l = some z) :
    mapStep bins s j k l sol p =
        insertAt s x.val y.val z.val sol p (j, k, l) ↔
      (s.mapP x.val y.val z.val < 0 ∨ s.mapP x.val y.val z.val > p) := by
  rw [mapStep_valid bins s j k l sol p x y z hj hk hl]
  by_cases hacc : accepts (s.mapP x.val y.val z.val) p
  · rw [if_pos hacc]
    exact iff_of_true rfl hacc
  · rw [if_neg hacc]
    constructor
    · intro he
      have hd := congrArg MapState.dataPoints he
      simp [insertAt] at hd
    · intro hc
      exact absurd hc hacc

/-- Claim C1: a challenger with fitness `p` overwrites a cell iff the cell's
current fitness is negative (the empty sentinel) or strictly greater than
`p`; an empty cell (sentinel `-1`) always accepts, an equal-fitness
challenger is always rejected (fitness values are non-negative), and the
sequence of fitness values ever stored in one cell is non-increasing. -/
theorem C1_archive_insertion :
    (∀ (σ : Type) (bins : ℕ) (s : MapState σ) (j k l : ℤ) (sol : σ) (p : ℚ)
        (x y z : Fin bins),
      npIndex bins j = some x → npIndex bins k = some y →
      npIndex bins l = some z →
      (mapStep bins s j k l sol p =
          insertAt s x.val y.val z.val sol p (j, k, l) ↔
        (s.mapP x.val y.val z.val < 0 ∨ s.mapP x.val y.val z.val > p))) ∧
    (∀ p : ℚ, accepts (-1) p) ∧
    (∀ p : ℚ, 0 ≤ p → ¬accepts p p) ∧
    (∀ (wt w0 : ℚ) (P : ℕ) (sched : List (List Exercise)),
      0 ≤ fitnessDelta wt w0 P sched) ∧
    (∀ ps : List ℚ, (∀ p ∈ ps, 0 ≤ p) →
      List.Chain' (fun a b => a ≥ b) (storedSeq (-1) ps)) := by
  refine ⟨fun σ bins s j k l sol p x y z hj hk hl =>
      mapStep_insert_iff bins s j k l sol p x y z hj hk hl,
    fun p => Or.inl (by norm_num),
    fun p hp hacc => ?_,
    fitnessDelta_nonneg,
    fun ps h => storedSeq_chain ps (-1) h⟩
  rcases hacc with h | h
  · exact absurd hp (not_le.mpr h)
  · exact lt_irrefl p h

/-- Witness for claim C1 at concrete cells, fitness values and traces. -/
theorem C1_archive_insertion_witness :
    (mapStep 1 (initState Unit) 0 0 0 () 5 =
      insertAt (initState Unit) 0 0 0 () 5 (0, 0, 0)) ∧
    ¬accepts 5 5 ∧
    (0 : ℚ) ≤ fitnessDelta 75 80 1 (weekSchedule [⟨8, 30, 64⟩]) ∧
    List.Chain' (fun a b => a ≥ b) (storedSeq (-1) [5, 3, 4]) := by
  refine ⟨(C1_archive_insertion.1 Unit 1 (initState Unit) 0 0 0 () 5
      ⟨0, by omega⟩ ⟨0, by omega⟩ ⟨0, by omega⟩ rfl rfl rfl).mpr
        (Or.inl (by norm_num [initState])),
    C1_archive_insertion.2.2.1 5 (by norm_num),
    C1_archive_insertion.2.2.2.1 75 80 1 _,
    C1_archive_insertion.2.2.2.2 [5, 3, 4] ?_⟩
  intro p hp
  rcases List.mem_cons.mp hp with rfl | hp
  · norm_num
  rcases List.mem_cons.mp hp with rfl | hp
  · norm_num
  rcases List.mem_cons.mp hp with rfl | hp
  · norm_num
  · simp at hp

/-- `npIndex` fails exactly on the indices numpy rejects: those below `-b` or
at/above `b`. -/
theorem npIndex_eq_none_iff (b : ℕ) (j : ℤ) :
    npIndex b j = none ↔ j < -(b : ℤ) ∨ (b : ℤ) ≤ j := by
  unfold npIndex
  split_ifs with h1 h2 <;> simp <;> omega

/-- Claim C3 counterexample: with `bins = 1` the index triple `(1,1,1)` lies
in `[1, bins]` yet the evaluation is skipped (the counter is incremented and
nothing is archived), while with `bins = 2` the triple `(0,0,0)` lies outside
`[1, bins]` yet the evaluation proceeds and inserts. -/
theorem C3_counterexample :
    ((mapStep 1 (initState Unit) 1 1 1 () 5).skipped = 1 ∧
      (mapStep 1 (initState Unit) 1 1 1 () 5).dataPoints = [] ∧
      (mapStep 1 (initState Unit) 1 1 1 () 5).mapX 0 0 0 = none) ∧
    ((mapStep 2 (initState Unit) 0 0 0 () 5).skipped = 0 ∧
      (mapStep 2 (initState Unit) 0 0 0 () 5).mapX 0 0 0 = some ()) := by
  decide

/-- Claim C3, amended: an evaluation is skipped (skip counter incremented,
performance grid, solution grid and data points unchanged) iff one of the
three scaled indices falls outside numpy's valid index range
`[-bins, bins - 1]`; when all three lie inside that range the evaluation
proceeds to the elitist archive-update attempt. -/
theorem C3_skip_rule_amended :
    (∀ (b : ℕ) (j : ℤ), npIndex b j = none ↔ j < -(b : ℤ) ∨ (b : ℤ) ≤ j) ∧
    (∀ (σ : Type) (bins : ℕ) (s : MapState σ) (j k l : ℤ) (sol : σ) (p : ℚ),
      (npIndex bins j = none ∨ npIndex bins k = none ∨
        npIndex bins l = none) →
      mapStep bins s j k l sol p = { s with skipped := s.skipped + 1 }) ∧
    (∀ (σ : Type) (bins : ℕ) (s : MapState σ) (j k l : ℤ) (sol : σ) (p : ℚ)
        (x y z : Fin bins),
      npIndex bins j = some x → npIndex bins k = some y →
      npIndex bins l = some z →
      mapStep bins s j k l sol p =
        if accepts (s.mapP x.val y.val z.val) p then
          insertAt s x.val y.val z.val sol p (j, k, l)
        else s) :=
  ⟨npIndex_eq_none_iff,
    fun _ bins s j k l sol p h => mapStep_skip bins s j k l sol p h,
    fun _ bins s j k l sol p x y z hj hk hl =>
      mapStep_valid bins s j k l sol p x y z hj hk hl⟩

/-- Witness for the amended claim C3 at concrete indices. -/
theorem C3_skip_rule_amended_witness :
    (mapStep 1 (initState Unit) 5 0 0 () 3 =
      { initState Unit with skipped := (initState Unit).skipped + 1 }) ∧
    (mapStep 1 (initState Unit) 0 0 0 () 3 =
      if accepts ((initState Unit).mapP 0 0 0) 3 then
        insertAt (initState Unit) 0 0 0 () 3 (0, 0, 0)
      else initState Unit) :=
  ⟨C3_skip_rule_amended.2.1 Unit 1 (initState Unit) 5 0 0 () 3
      (Or.inl (by decide)),
    C3_skip_rule_amended.2.2 Unit 1 (initState Unit) 0 0 0 () 3
      ⟨0, by omega⟩ ⟨0, by omega⟩ ⟨0, by omega⟩ rfl rfl rfl⟩

/-- The canonical cell a raw data point addresses through numpy indexing. -/
def normCoord (bins : ℕ) (dp : ℤ × ℤ × ℤ) : Option (ℕ × ℕ × ℕ) :=
  match npIndex bins dp.1, npIndex bins dp.2.1, npIndex bins dp.2.2 with
  | some x, some y, some z => some (x.val, y.val, z.val)
  | _, _, _ => none

/-- The occupied-coordinate consistency property: a cell is occupied iff some
recorded data point addresses it. -/
def occInv (bins : ℕ) {σ : Type} (s : MapState σ) : Prop :=
  ∀ x y z : ℕ, s.mapX x y z ≠ none ↔
    ∃ dp ∈ s.dataPoints, normCoord bins dp = some (x, y, z)

/-- The freshly initialised archive satisfies the consistency property. -/
theorem occInv_init (bins : ℕ) (σ : Type) : occInv bins (initState σ) := by
  intro x y z
  simp [initState]

/-- One evaluation of the loop body preserves the occupied-coordinate
consistency property. -/
theorem occInv_mapStep {σ : Type} (bins : ℕ) (s : MapState σ) (j k l : ℤ)
    (sol : σ) (p : ℚ) (h : occInv bins s) :
    occInv bins (mapStep bins s j k l sol p) := by
  rcases hj : npIndex bins j with _ | x
  · rw [mapStep_skip bins s j k l sol p (Or.inl hj)]
    exact h
  rcases hk : npIndex bins k with _ | y
  · rw [mapStep_skip bins s j k l sol p (Or.inr (Or.inl hk))]
    exact h
  rcases hl : npIndex bins l with _ | z
  · rw [mapStep_skip bins s j k l sol p (Or.inr (Or.inr hl))]
    exact h
  rw [mapStep_valid bins s j k l sol p x y z hj hk hl]
  by_cases hacc : accepts (s.mapP x.val y.val z.val) p
  · rw [if_pos hacc]
    intro a b c
    have hnorm : normCoord bins (j, k, l) = some (x.val, y.val, z.val) := by
      simp [normCoord, hj, hk, hl]
    constructor
    · intro hocc
      by_cases hxyz : a = x.val ∧ b = y.val ∧ c = z.val
      · refine ⟨(j, k, l), List.mem_append_right _ ?_, ?_⟩
        · simp
        · rw [hnorm, hxyz.1, hxyz.2.1, hxyz.2.2]
      · have hs : s.mapX a b c ≠ none := by
          simpa [insertAt, if_neg hxyz] using hocc
        obtain ⟨dp, hdp, hn⟩ := (h a b c).mp hs
        exact ⟨dp, List.mem_append_left _ hdp, hn⟩
    · rintro ⟨dp, hdp, hn⟩
      by_cases hxyz : a = x.val ∧ b = y.val ∧ c = z.val
      · simp [insertAt, hxyz]
      · simp only [insertAt, if_neg hxyz, ne_eq]
        rcases List.mem_append.mp hdp with hdp | hdp
        · exact (h a b c).mpr ⟨dp, hdp, hn⟩
        · have hde : dp = (j, k, l) := by simpa using hdp
          rw [hde, hnorm] at hn
          have : a = x.val ∧ b = y.val ∧ c = z.val := by
            have := Option.some_injective _ hn
            exact ⟨(Prod.ext_iff.mp this).1.symm,
              (Prod.ext_iff.mp (Prod.ext_iff.mp this).2).1.symm,
              (Prod.ext_iff.mp (Prod.ext_iff.mp this).2).2.symm⟩
          exact absurd this hxyz
  · rw [if_neg hacc]
    exact h

/-- The consistency property holds after any sequence of evaluations. -/
theorem occInv_foldl {σ : Type} (bins : ℕ)
    (steps : List ((ℤ × ℤ × ℤ) × σ × ℚ)) :
    ∀ s : MapState σ, occInv bins s →
      occInv bins (steps.foldl
        (fun s t => mapStep bins s t.1.1 t.1.2.1 t.1.2.2 t.2.1 t.2.2) s) := by
  induction steps with
  | nil => exact fun s h => h
  | cons t ts ih =>
    intro s h
    exact ih _ (occInv_mapStep bins s t.1.1 t.1.2.1 t.1.2.2 t.2.1 t.2.2 h)

/-- Claim C8 counterexample: a second accepted insertion into the same cell
appends the coordinate `(0,0,0)` to the data-point list even though it is
already present, so coordinates are not registered only when absent. -/
theorem C8_counterexample :
    (mapStep 1 (initState Unit) 0 0 0 () 5).dataPoints = [(0, 0, 0)] ∧
    (mapStep 1 (mapStep 1 (initState Unit) 0 0 0 () 5) 0 0 0 () 3).dataPoints =
      [(0, 0, 0), (0, 0, 0)] := by
  decide

/-- Claim C8, amended: on every successful insertion the coordinate triple is
appended to the data-point list unconditionally (duplicates accumulate across
re-insertions into the same cell), and at every point of a run the list
contains a coordinate addressing a cell exactly when that cell is occupied. -/
theorem C8_data_points_amended :
    (∀ (σ : Type) (bins : ℕ) (s : MapState σ) (j k l : ℤ) (sol : σ) (p : ℚ)
        (x y z : Fin bins),
      npIndex bins j = some x → npIndex bins k = some y →
      npIndex bins l = some z → accepts (s.mapP x.val y.val z.val) p →
      (mapStep bins s j k l sol p).dataPoints = s.dataPoints ++ [(j, k, l)]) ∧
    (∀ (σ : Type) (bins : ℕ) (steps : List ((ℤ × ℤ × ℤ) × σ × ℚ)),
      occInv bins (steps.foldl
        (fun s t => mapStep bins s t.1.1 t.1.2.1 t.1.2.2 t.2.1 t.2.2)
        (initState σ))) := by
  constructor
  · intro σ bins s j k l sol p x y z hj hk hl hacc
    rw [mapStep_valid bins s j k l sol p x y z hj hk hl, if_pos hacc]
    rfl
  · intro σ bins steps
    exact occInv_foldl bins steps (initState σ) (occInv_init bins σ)

/-- Witness for the amended claim C8 at a concrete insertion and run. -/
theorem C8_data_points_amended_witness :
    ((mapStep 1 (initState Unit) 0 0 0 () 5).dataPoints =
      (initState Unit).dataPoints ++ [(0, 0, 0)]) ∧
    occInv 1 ([((0, 0, 0), (), 5), ((0, 0, 0), (), 3)].foldl
      (fun s t => mapStep 1 s t.1.1 t.1.2.1 t.1.2.2 t.2.1 t.2.2)
      (initState Unit)) :=
  ⟨C8_data_points_amended.1 Unit 1 (initState Unit) 0 0 0 () 5
      ⟨0, by omega⟩ ⟨0, by omega⟩ ⟨0, by omega⟩ rfl rfl rfl
      (Or.inl (by norm_num [initState])),
    C8_data_points_amended.2 Unit 1 [((0, 0, 0), (), 5), ((0, 0, 0), (), 3)]⟩

/-- Claim C2 counterexample: for an archived Schedule whose genotype holds
gene object `0` (value `⟨0, 15, 1⟩` on the heap), the copy-constructed child
holds the very same gene reference, and the EXPLORE mutation
(`parent.mutate()` altering the duration to 30) changes the archived
occupant's own observed genes — they are not identical before and after. -/
theorem C2_counterexample :
    (copyChrom (⟨[0]⟩ : ChromRef)).ids = ([0] : List ℕ) ∧
    (0 : ℕ) ∈ (copyChrom (⟨[0]⟩ : ChromRef)).ids ∧
    (0 : ℕ) ∈ (⟨[0]⟩ : ChromRef).ids ∧
    observedGenes (fun _ => ⟨0, 15, 1⟩) (⟨[0]⟩ : ChromRef) = [⟨0, 15, 1⟩] ∧
    observedGenes
      (exploreAlterStep (fun _ => ⟨0, 15, 1⟩) ⟨⟨[0]⟩, 0, (0, 0, 0)⟩ 0
        (.dur 30)).1 ⟨[0]⟩ = [⟨0, 30, 1⟩] ∧
    ([(⟨0, 30, 1⟩ : Gene)] ≠ [(⟨0, 15, 1⟩ : Gene)]) := by
  decide

/-- Claim C2, amended: during an EXPLORE evaluation the archived parent is
mutated in place — `mutate()` runs on the occupant itself, and
copy-construction shares every `Gene` reference between the new Schedule and
the occupant — so after an alter mutation at index `i` the occupant's
observed genotype equals its old genotype with position `i` replaced, while
the occupant's cached fitness and feature values (stored at construction)
are unchanged; the child observes exactly the same mutated genes. -/
theorem C2_explore_sharing_amended (h : GeneHeap) (occ : ArchivedSchedule)
    (i : ℕ) (f : FieldAlter) (hnd : occ.genotype.ids.Nodup)
    (hi : i < occ.genotype.ids.length) :
    (exploreAlterStep h occ i f).2.1.ids = occ.genotype.ids ∧
    (exploreAlterStep h occ i f).2.2 = occ ∧
    observedGenes (exploreAlterStep h occ i f).1 occ.genotype =
      (observedGenes h occ.genotype).set i
        (alterGene (h (occ.genotype.ids.getD i 0)) f) ∧
    observedGenes (exploreAlterStep h occ i f).1
        (exploreAlterStep h occ i f).2.1 =
      observedGenes (exploreAlterStep h occ i f).1 occ.genotype := by
  refine ⟨rfl, rfl, ?_, rfl⟩
  have hgd : occ.genotype.ids.getD i 0 = occ.genotype.ids[i] := by
    rw [List.getD_eq_getElem]
  apply List.ext_getElem
  · simp [observedGenes, exploreAlterStep]
  · intro n h1 h2
    simp only [observedGenes, exploreAlterStep, heapAlter, List.getElem_map,
      List.getElem_set, hgd]
    rcases eq_or_ne i n with rfl | hn
    · simp
    · rw [if_neg hn, if_neg]
      intro hc
      exact hn (hnd.getElem_inj_iff.mp hc).symm

/-- Witness for the amended claim C2 at a concrete heap and occupant. -/
theorem C2_explore_sharing_amended_witness :
    (exploreAlterStep (fun _ => ⟨0, 15, 1⟩) ⟨⟨[0]⟩, 0, (0, 0, 0)⟩ 0
        (.dur 30)).2.1.ids = [0] ∧
    observedGenes
        (exploreAlterStep (fun _ => ⟨0, 15, 1⟩) ⟨⟨[0]⟩, 0, (0, 0, 0)⟩ 0
          (.dur 30)).1 ⟨[0]⟩ =
      (observedGenes (fun _ => ⟨0, 15, 1⟩) ⟨[0]⟩).set 0
        (alterGene ((fun _ => (⟨0, 15, 1⟩ : Gene)) (([0] : List ℕ).getD 0 0))
          (.dur 30)) := by
  have h := C2_explore_sharing_amended (fun _ => ⟨0, 15, 1⟩)
    ⟨⟨[0]⟩, 0, (0, 0, 0)⟩ 0 (.dur 30) (by decide) (by decide)
  exact ⟨h.1, h.2.2.1⟩

/-- The largest number of exercises placed on any single weekday. -/
def maxDayCount (exs : List Exercise) : ℕ :=
  ((weekSchedule exs).map List.length).foldr max 0

/-- Every row is no longer than the padding target of
`_fill_and_return_matrix`. -/
theorem le_maxRowLen (rows : List (List ℚ)) (r : List ℚ) (hr : r ∈ rows) :
    r.length ≤ maxRowLen rows := by
  induction rows with
  | nil => cases hr
  | cons a rows ih =>
    rcases List.mem_cons.mp hr with rfl | hr
    · simp only [maxRowLen, List.map_cons, List.foldr_cons]
      exact le_max_left _ _
    · exact le_trans (ih hr)
        (by simp only [maxRowLen, List.map_cons, List.foldr_cons]
            exact le_max_right _ _)

/-- `np.mean` of a zero-padded matrix: the entry sum is unchanged by the
padding while the entry count becomes rows × longest-row. -/
theorem npMean2d_fillMatrix (rows : List (List ℚ)) :
    npMean2d (fillMatrix rows) =
      (rows.map List.sum).sum / ((rows.length * maxRowLen rows : ℕ) : ℚ) := by
  unfold npMean2d
  have hs : (fillMatrix rows).map List.sum = rows.map List.sum := by
    rw [fillMatrix, List.map_map]
    apply List.map_congr_left
    intro r hr
    simp [Function.comp, List.sum_append]
  have hl : (fillMatrix rows).map List.length =
      rows.map (fun _ => maxRowLen rows) := by
    rw [fillMatrix, List.map_map]
    apply List.map_congr_left
    intro r hr
    have := le_maxRowLen rows r hr
    simp only [Function.comp_apply, List.length_append, List.length_replicate]
    omega
  rw [hs, hl]
  congr 2
  rw [List.map_const', List.sum_replicate]
  simp [mul_comm]

/-- Claim C4 counterexample: for a Schedule with a single exercise of MET 8
occurring on exactly one weekday, `features()` reports a mean MET of `8/7`
(the zero-padded matrix mean), not the occurrence mean `8`. -/
theorem C4_counterexample :
    (features [⟨8, 30, 64⟩]).1 = 8 / 7 ∧
    specOccurrenceMeanMet [⟨8, 30, 64⟩] = 8 ∧
    (features [⟨8, 30, 64⟩]).1 ≠ specOccurrenceMeanMet [⟨8, 30, 64⟩] := by
  have hwk : weekSchedule [(⟨8, 30, 64⟩ : Exercise)] =
      [[⟨8, 30, 64⟩], [], [], [], [], [], []] := by decide
  have h1 : (features [(⟨8, 30, 64⟩ : Exercise)]).1 = 8 / 7 := by
    norm_num [features, metsMatrix, hwk, fillMatrix, maxRowLen, npMean2d]
  have h2 : specOccurrenceMeanMet [(⟨8, 30, 64⟩ : Exercise)] = 8 := by
    norm_num [specOccurrenceMeanMet, hwk, npMean1d]
  refine ⟨h1, h2, ?_⟩
  rw [h1, h2]
  norm_num

/-- Claim C4, amended: the first two components of `features()` are the sums
of the MET values (resp. durations) over all scheduled occurrences divided by
`7 · m`, where `m` is the largest number of exercises on any single weekday
(the mean of the zero-padded 7×m matrix), not the occurrence means; the third
component is, as claimed, the mean over the Schedule's exercises of the
popcount of each exercise's own 7-bit mask. -/
theorem C4_features_amended (exs : List Exercise) :
    (features exs).1 =
      ((weekSchedule exs).flatten.map (fun e => e.met)).sum /
        ((7 * maxDayCount exs : ℕ) : ℚ) ∧
    (features exs).2.1 =
      ((weekSchedule exs).flatten.map (fun e => (e.duration : ℚ))).sum /
        ((7 * maxDayCount exs : ℕ) : ℚ) ∧
    (features exs).2.2 =
      (exs.map (fun e => (frequency e : ℚ))).sum / (exs.length : ℚ) := by
  have hlen : (weekSchedule exs).length = 7 := by
    simp [weekSchedule]
  have hmax : ∀ f : Exercise → ℚ,
      maxRowLen ((weekSchedule exs).map (List.map f)) = maxDayCount exs := by
    intro f
    simp only [maxRowLen, maxDayCount, List.map_map]
    congr 1
    apply List.map_congr_left
    intro r hr
    simp
  have hsum : ∀ f : Exercise → ℚ,
      (((weekSchedule exs).map (List.map f)).map List.sum).sum =
        ((weekSchedule exs).flatten.map f).sum := by
    intro f
    rw [List.map_flatten, List.sum_flatten]
  refine ⟨?_, ?_, ?_⟩
  · rw [show (features exs).1 = npMean2d (metsMatrix exs) from rfl,
      metsMatrix, npMean2d_fillMatrix, hsum, hmax, List.length_map, hlen]
  · rw [show (features exs).2.1 = npMean2d (durationsMatrix exs) from rfl,
      durationsMatrix, npMean2d_fillMatrix, hsum, hmax, List.length_map, hlen]
  · rw [show (features exs).2.2 = npMean1d (frequenciesArray exs) from rfl]
    rw [npMean1d, frequenciesArray, List.length_map]

/-- One exercise's update multiplies the running weight by the loss
factor. -/
theorem weightLoss_step (met w dur : ℚ) :
    w - weightLoss met w dur = w * (1 - 13 / 100000 * met * dur / 60) := by
  unfold weightLoss
  ring

/-- A day's simulation keeps a positive weight positive, never increases it,
and strictly decreases it when the day is non-empty, provided every exercise
has a loss term strictly between 0 and 60. -/
theorem dayStep_bounds (day : List Exercise) : ∀ w : ℚ, 0 < w →
    (∀ e ∈ day, 0 < 13 / 100000 * e.met * (e.duration : ℚ) ∧
      13 / 100000 * e.met * (e.duration : ℚ) < 60) →
    0 < dayStep w day ∧ dayStep w day ≤ w ∧
      (day ≠ [] → dayStep w day < w) := by
  induction day with
  | nil => exact fun w hw _ => ⟨hw, le_refl w, fun h => absurd rfl h⟩
  | cons e day ih =>
    intro w hw hd
    have he := hd e (List.mem_cons_self e day)
    have hds := fun x hx => hd x (List.mem_cons_of_mem e hx)
    have hw' : 0 < w - weightLoss e.met w (e.duration : ℚ) := by
      rw [weightLoss_step]
      exact mul_pos hw (by linarith [he.2])
    have hlt : w - weightLoss e.met w (e.duration : ℚ) < w := by
      have hpos : 0 < weightLoss e.met w (e.duration : ℚ) := by
        rw [weightLoss,
          show 13 / 100000 * e.met * w * (e.duration : ℚ) =
            13 / 100000 * e.met * (e.duration : ℚ) * w by ring]
        exact div_pos (mul_pos he.1 hw) (by norm_num)
      linarith
    have hstep : dayStep w (e :: day) =
        dayStep (w - weightLoss e.met w (e.duration : ℚ)) day := rfl
    obtain ⟨h1, h2, _⟩ := ih (w - weightLoss e.met w (e.duration : ℚ)) hw' hds
    rw [hstep]
    exact ⟨h1, le_trans h2 (le_of_lt hlt),
      fun _ => lt_of_le_of_lt h2 hlt⟩

/-- A week's simulation keeps a positive weight positive, never increases it,
and strictly decreases it when some day is non-empty. -/
theorem weekStep_bounds (sched : List (List Exercise)) : ∀ w : ℚ, 0 < w →
    (∀ e ∈ sched.flatten, 0 < 13 / 100000 * e.met * (e.duration : ℚ) ∧
      13 / 100000 * e.met * (e.duration : ℚ) < 60) →
    0 < weekStep sched w ∧ weekStep sched w ≤ w ∧
      (sched.flatten ≠ [] → weekStep sched w < w) := by
  induction sched with
  | nil =>
    intro w hw _
    exact ⟨hw, le_refl w, fun h => absurd rfl h⟩
  | cons day rest ih =>
    intro w hw hs
    rw [List.flatten_cons] at hs
    have hday := fun e he => hs e (List.mem_append_left _ he)
    have hrest := fun e he => hs e (List.mem_append_right _ he)
    have hstep : weekStep (day :: rest) w = weekStep rest (dayStep w day) := rfl
    obtain ⟨hd1, hd2, hd3⟩ := dayStep_bounds day w hw hday
    obtain ⟨hr1, hr2, hr3⟩ := ih (dayStep w day) hd1 hrest
    rw [hstep] at *
    refine ⟨hr1, le_trans hr2 hd2, ?_⟩
    intro hne
    rw [List.flatten_cons] at hne
    by_cases hdn : day = []
    · subst hdn
      have : rest.flatten ≠ [] := by simpa using hne
      have hds : dayStep w ([] : List Exercise) = w := rfl
      rw [hds] at hr1 hr2 hr3 ⊢
      exact hr3 this
    · exact lt_of_le_of_lt hr2 (hd3 hdn)

/-- When no exercise occurrence is scheduled, the week simulation is the
identity. -/
theorem weekStep_of_no_occurrence (sched : List (List Exercise))
    (h : sched.flatten = []) : ∀ w : ℚ, weekStep sched w = w := by
  induction sched with
  | nil => exact fun w => rfl
  | cons day rest ih =>
    intro w
    rw [List.flatten_cons, List.append_eq_nil] at h
    have hstep : weekStep (day :: rest) w = weekStep rest (dayStep w day) := rfl
    rw [hstep, h.1]
    exact ih h.2 w

/-- Iterating the week simulation keeps the weight in `(0, w]`. -/
theorem finalWeight_pos_le (sched : List (List Exercise))
    (hex : ∀ e ∈ sched.flatten, 0 < 13 / 100000 * e.met * (e.duration : ℚ) ∧
      13 / 100000 * e.met * (e.duration : ℚ) < 60) :
    ∀ (P : ℕ) (w : ℚ), 0 < w →
      0 < finalWeight w P sched ∧ finalWeight w P sched ≤ w := by
  intro P
  induction P with
  | zero => exact fun w hw => ⟨hw, le_refl w⟩
  | succ n ih =>
    intro w hw
    have hstep : finalWeight w (n + 1) sched =
        finalWeight (weekStep sched w) n sched := by
      unfold finalWeight
      rw [Function.iterate_succ_apply]
    obtain ⟨hw1, hw2, _⟩ := weekStep_bounds sched w hw hex
    obtain ⟨hn1, hn2⟩ := ih (weekStep sched w) hw1
    rw [hstep]
    exact ⟨hn1, le_trans hn2 hw2⟩

/-- When no exercise occurrence is scheduled, the full simulation returns the
initial weight. -/
theorem finalWeight_of_no_occurrence (sched : List (List Exercise))
    (h : sched.flatten = []) (w0 : ℚ) (P : ℕ) :
    finalWeight w0 P sched = w0 := by
  unfold finalWeight
  induction P with
  | zero => rfl
  | succ n ihn =>
    rw [Function.iterate_succ_apply', ihn, weekStep_of_no_occurrence sched h]

/-- Claim C10 counterexample: with period `P = 0`, a positive initial weight
and a schedule with one occurrence whose loss term satisfies the claim's
bound, the simulated final weight equals `w0` — it is not strictly below
`w0`, contradicting the claim's "strictly between 0 and w0 when at least one
exercise occurrence is scheduled". -/
theorem C10_counterexample :
    ((0 : ℚ) < 80) ∧
    (∀ e ∈ (weekSchedule [(⟨8, 30, 64⟩ : Exercise)]).flatten,
      13 / 100000 * e.met * (e.duration : ℚ) < 60) ∧
    (weekSchedule [(⟨8, 30, 64⟩ : Exercise)]).flatten ≠ [] ∧
    finalWeight 80 0 (weekSchedule [⟨8, 30, 64⟩]) = 80 ∧
    ¬(finalWeight 80 0 (weekSchedule [⟨8, 30, 64⟩]) < 80) := by
  have hwk : weekSchedule [(⟨8, 30, 64⟩ : Exercise)] =
      [[⟨8, 30, 64⟩], [], [], [], [], [], []] := by decide
  refine ⟨by norm_num, ?_, ?_, rfl, by norm_num [finalWeight]⟩
  · rw [hwk]
    intro e he
    simp at he
    rw [he]
    norm_num
  · rw [hwk]
    simp

/-- Claim C10, amended: provided `0 < w0` and every scheduled occurrence has
a loss term strictly between 0 and 60, the simulated final weight always lies
in `(0, w0]`; it is strictly below `w0` when `P ≥ 1` and at least one
occurrence is scheduled, and equals `w0` when `P = 0` or no occurrence is
scheduled. -/
theorem C10_final_weight_amended (w0 : ℚ) (P : ℕ)
    (sched : List (List Exercise)) (hw : 0 < w0)
    (hex : ∀ e ∈ sched.flatten, 0 < 13 / 100000 * e.met * (e.duration : ℚ) ∧
      13 / 100000 * e.met * (e.duration : ℚ) < 60) :
    0 < finalWeight w0 P sched ∧ finalWeight w0 P sched ≤ w0 ∧
      (1 ≤ P → sched.flatten ≠ [] → finalWeight w0 P sched < w0) ∧
      (sched.flatten = [] → finalWeight w0 P sched = w0) ∧
      (P = 0 → finalWeight w0 P sched = w0) := by
  obtain ⟨h1, h2⟩ := finalWeight_pos_le sched hex P w0 hw
  refine ⟨h1, h2, ?_, ?_, ?_⟩
  · intro hP hne
    obtain ⟨n, rfl⟩ : ∃ n, P = n + 1 := ⟨P - 1, by omega⟩
    have hstep : finalWeight w0 (n + 1) sched =
        finalWeight (weekStep sched w0) n sched := by
      unfold finalWeight
      rw [Function.iterate_succ_apply]
    obtain ⟨hw1, _, hw3⟩ := weekStep_bounds sched w0 hw hex
    obtain ⟨_, hn2⟩ := finalWeight_pos_le sched hex n (weekStep sched w0) hw1
    rw [hstep]
    exact lt_of_le_of_lt hn2 (hw3 hne)
  · intro hflat
    exact finalWeight_of_no_occurrence sched hflat w0 P
  · intro hP
    subst hP
    rfl

/-- Witness for the amended claim C10 at a concrete configuration. -/
theorem C10_final_weight_amended_witness :
    0 < finalWeight 80 1 (weekSchedule [⟨8, 30, 64⟩]) ∧
      finalWeight 80 1 (weekSchedule [⟨8, 30, 64⟩]) ≤ 80 ∧
      ((weekSchedule [(⟨8, 30, 64⟩ : Exercise)]).flatten ≠ [] →
        finalWeight 80 1 (weekSchedule [⟨8, 30, 64⟩]) < 80) := by
  have hwk : weekSchedule [(⟨8, 30, 64⟩ : Exercise)] =
      [[⟨8, 30, 64⟩], [], [], [], [], [], []] := by decide
  have h := C10_final_weight_amended 80 1 (weekSchedule [⟨8, 30, 64⟩])
    (by norm_num) ?_
  · exact ⟨h.1, h.2.1, fun hne => h.2.2.1 (by omega) hne⟩
  · rw [hwk]
    intro e he
    simp at he
    rw [he]
    norm_num

/-- Every entry of the padded durations matrix is non-negative. -/
theorem durationsMatrix_entry_nonneg (exs : List Exercise) (r : List ℚ)
    (hr : r ∈ durationsMatrix exs) (q : ℚ) (hq : q ∈ r) : 0 ≤ q := by
  rw [durationsMatrix, fillMatrix] at hr
  obtain ⟨r0, hr0, rfl⟩ := List.mem_map.mp hr
  rcases List.mem_append.mp hq with hq | hq
  · obtain ⟨day, _, rfl⟩ := List.mem_map.mp hr0
    obtain ⟨e, _, rfl⟩ := List.mem_map.mp hq
    positivity
  · rw [List.eq_of_mem_replicate hq]

/-- The second feature (the padded mean duration) is non-negative. -/
theorem durations_mean_nonneg (exs : List Exercise) :
    0 ≤ (features exs).2.1 := by
  rw [show (features exs).2.1 = npMean2d (durationsMatrix exs) from rfl]
  unfold npMean2d
  apply div_nonneg
  · apply List.sum_nonneg
    intro x hx
    obtain ⟨r, hr, rfl⟩ := List.mem_map.mp hx
    exact List.sum_nonneg (durationsMatrix_entry_nonneg exs r hr)
  · positivity

/-- Scaling a non-negative value against the daily-duration range always
produces an index of at least 1. -/
theorem scaleOne_d2_ge_one (b : ℕ) (r : ℚ) (hr : 0 ≤ r) :
    1 ≤ scaleOne 0 481 b r := by
  unfold scaleOne pyInt
  have harg : 0 ≤ (r - ((0 : ℤ) : ℚ)) /
      (((481 + 1 - 0 : ℤ) : ℚ) / (b : ℚ)) := by
    apply div_nonneg (by simpa using hr)
    apply div_nonneg (by norm_num) (by positivity)
  rw [if_pos harg]
  have hfl : (0 : ℤ) ≤ ⌊(r - ((0 : ℤ) : ℚ)) /
      (((481 + 1 - 0 : ℤ) : ℚ) / (b : ℚ))⌋ := Int.le_floor.mpr (by simpa using harg)
  omega

/-- With `bins = 1` every evaluation is skipped: the second scaled index is
at least 1, which is out of bounds for a numpy axis of size 1, so the
archive-update attempt always raises `IndexError`. -/
theorem runEval_bins_one_skips {σ : Type} (metLo metStop : ℤ) (wt w0 : ℚ)
    (P : ℕ) (s : MapState σ) (sol : σ) (exs : List Exercise) :
    runEval 1 metLo metStop 0 481 wt w0 P s sol exs =
      { s with skipped := s.skipped + 1 } := by
  unfold runEval
  apply mapStep_skip
  refine Or.inr (Or.inl ?_)
  rw [npIndex_eq_none_iff]
  right
  have h := scaleOne_d2_ge_one 1 (features exs).2.1 (durations_mean_nonneg exs)
  simpa [scaleFeatures] using h

/-- Claim C7 counterexample: in Scenario A's configuration (catalog of one
entry with MET 5 so `met_range = range(5, 5)`, `daily_duration_range =
range(0, 481)`, `bins = 1`, one INIT evaluation), the initial Chromosome
holds 5 genes (not 1), and the single evaluation is skipped: the run ends
with the skip counter at 1, no occupied cell and no data point, not with one
occupied cell at feature triple `(1,1,1)`. -/
theorem C7_counterexample :
    decodeChromosome [5]
        [⟨0, 30, 1⟩, ⟨0, 30, 1⟩, ⟨0, 30, 1⟩, ⟨0, 30, 1⟩, ⟨0, 30, 1⟩] =
      some [⟨5, 30, 1⟩, ⟨5, 30, 1⟩, ⟨5, 30, 1⟩, ⟨5, 30, 1⟩, ⟨5, 30, 1⟩] ∧
    ([(⟨0, 30, 1⟩ : Gene), ⟨0, 30, 1⟩, ⟨0, 30, 1⟩, ⟨0, 30, 1⟩,
      ⟨0, 30, 1⟩]).length = 5 ∧
    (runEval 1 5 5 0 481 75 80 1 (initState Unit) ()
        [⟨5, 30, 1⟩, ⟨5, 30, 1⟩, ⟨5, 30, 1⟩, ⟨5, 30, 1⟩, ⟨5, 30, 1⟩]).skipped
      = 1 ∧
    (runEval 1 5 5 0 481 75 80 1 (initState Unit) ()
        [⟨5, 30, 1⟩, ⟨5, 30, 1⟩, ⟨5, 30, 1⟩, ⟨5, 30, 1⟩, ⟨5, 30, 1⟩]).mapX
      0 0 0 = none ∧
    (runEval 1 5 5 0 481 75 80 1 (initState Unit) ()
        [⟨5, 30, 1⟩, ⟨5, 30, 1⟩, ⟨5, 30, 1⟩, ⟨5, 30, 1⟩,
          ⟨5, 30, 1⟩]).dataPoints = [] := by
  have hskip := runEval_bins_one_skips 5 5 (75 : ℚ) 80 1 (initState Unit) ()
    [⟨5, 30, 1⟩, ⟨5, 30, 1⟩, ⟨5, 30, 1⟩, ⟨5, 30, 1⟩, ⟨5, 30, 1⟩]
  refine ⟨by decide, by decide, ?_, ?_, ?_⟩ <;> rw [hskip] <;> rfl

/-- Claim C7, amended: with `bins = 1` the run terminates with zero occupied
archive cells — the second scaled feature component is always at least 1,
which is out of bounds for the size-1 numpy axis, so every evaluation
(including the single Scenario-A evaluation) raises `IndexError` and only
increments the skip counter — and the initial Chromosome built by
`Chromosome.__init__` holds 5 genes, not 1. -/
theorem C7_scenario_amended :
    (∀ (metLo metStop : ℤ) (exs : List Exercise),
      1 ≤ (scaleFeatures metLo metStop 0 481 1 (features exs)).2.1) ∧
    (∀ (σ : Type) (metLo metStop : ℤ) (wt w0 : ℚ) (P : ℕ) (s : MapState σ)
        (sol : σ) (exs : List Exercise),
      runEval 1 metLo metStop 0 481 wt w0 P s sol exs =
        { s with skipped := s.skipped + 1 }) ∧
    (∀ fresh : ℕ → Gene, (generateChromosome fresh).length = 5) := by
  refine ⟨fun metLo metStop exs => ?_,
    fun σ metLo metStop wt w0 P s sol exs =>
      runEval_bins_one_skips metLo metStop wt w0 P s sol exs,
    fun fresh => by simp [generateChromosome]⟩
  exact scaleOne_d2_ge_one 1 (features exs).2.1 (durations_mean_nonneg exs)

end HonoursProject
